import Mathlib

/-!
Verification development for the `predictive-modeling-py` repository
(`scripts/open_rds.py` and `scripts/mouse.py`).

The Python code is shallowly embedded: numpy arrays become `List`s, the
numeric dtype (R doubles) becomes `ℚ`, spike counts (cast with `dtype=int`)
become `ℤ`, pandas `DataFrame`s become structures carrying row labels,
column labels and row-major data, and fallible Python code returns
`Option`/`Except`.
-/

namespace PredModel

/-- Python exception classes relevant to `open_rds.get_session_file`. -/
inductive PyError where
  | valueError
  | typeError
deriving DecidableEq, Repr

/-- The Python values that can be passed as the `session` argument of
`get_session_file`. -/
inductive PyArg where
  | int (z : ℤ)
  | str (s : String)
  | bool (b : Bool)
  | pyNone
  | list (xs : List ℤ)
deriving DecidableEq, Repr

/-- Decimal-digit accumulator for the string case of `int()`. -/
def pyParseDigits (acc : ℤ) : List Char → Option ℤ
  | [] => some acc
  | c :: cs =>
      if c.isDigit then pyParseDigits (10 * acc + ((c.toNat : ℤ) - 48)) cs
      else none

/-- The string case of `int()`: an optional sign followed by at least one
decimal digit (surrounding whitespace and underscore separators, which
Python also accepts, are not modelled; no claim depends on them). -/
def pyStrToInt : String → Option ℤ := fun s =>
  match s.data with
  | [] => none
  | '-' :: cs => if cs = [] then none else (pyParseDigits 0 cs).map (fun n => -n)
  | '+' :: cs => if cs = [] then none else pyParseDigits 0 cs
  | cs => pyParseDigits 0 cs

/-- The built-in conversion `int(session)`: already an `int` is returned as
is, `bool` converts to 0/1, a string is parsed (failure raises `ValueError`),
and `None` or a list raises `TypeError`. -/
def pyIntConv : PyArg → Except PyError ℤ
  | .int z => .ok z
  | .bool b => .ok (if b then 1 else 0)
  | .str s =>
      match pyStrToInt s with
      | some z => .ok z
      | none => .error .valueError
  | .pyNone => .error .typeError
  | .list _ => .error .typeError

/-- Result of `get_session_file`: either the empty list returned on failed
validation, or the decoded contents of `data/session{n}.rds` (the decoding
itself is delegated to the R runtime and is out of scope; the constructor
only records which file is read). -/
inductive SessionResult where
  | emptyList
  | fileData (n : ℤ)
deriving DecidableEq, Repr

/-- `open_rds.get_session_file`, validation part: `int(session)` inside a
`try` that catches only `ValueError` and returns `[]`; then the range check
`session < 1 or session > 19` returns `[]`; otherwise the RDS file for the
session is read. An uncaught exception (e.g. `TypeError`) propagates. -/
def get_session_file (session : PyArg) : Except PyError SessionResult :=
  match pyIntConv session with
  | .error .valueError => .ok .emptyList
  | .error e => .error e
  | .ok z => if z < 1 ∨ z > 19 then .ok .emptyList else .ok (.fileData z)

/-- Calling the one-parameter function `get_session_file` with a Python
argument list: Python raises `TypeError` when the number of positional
arguments does not match the signature. -/
def call_get_session_file (args : List PyArg) : Except PyError SessionResult :=
  match args with
  | [a] => get_session_file a
  | _ => .error .typeError

/-- The session-loading step of `Mouse.__init__`:
`self.session = get_session_file(session, test)` passes two positional
arguments. -/
def mouse_init_session_load (session : PyArg) (test : Bool) :
    Except PyError SessionResult :=
  call_get_session_file [session, .bool test]

/-- The two on-disk encodings of the `contrast_left`, `contrast_right` and
`feedback_type` fields: sessions 2-17 store an array of sub-arrays, sessions
1 and 18 a flat array of scalars. -/
inductive FieldEncoding where
  | nested (xs : List (List ℚ))
  | flat (xs : List ℚ)
deriving DecidableEq, Repr

/-- The flattening done by `Mouse._get_contrast_left` (and, identically, by
`_get_contrast_right` and `_get_feedback_type`): the branch test
`isinstance(session[k][0], np.ndarray)` first indexes element 0, which
raises `IndexError` on an empty array (modelled by `none`); a nested array
is flattened with a double comprehension, a flat one is copied. -/
def flattenField : FieldEncoding → Option (List ℚ)
  | .nested [] => none
  | .nested xs => some xs.flatten
  | .flat [] => none
  | .flat xs => some xs

/-- The session-2-17 encoding of a per-trial value list: one singleton
sub-array per trial. -/
def nestedEnc (v : List ℚ) : FieldEncoding :=
  .nested (v.map fun x => [x])

/-- Elementwise `np.where(cond, t, e)` with a scalar `t` and an array `e`. -/
def npWhereSA (cond : List Bool) (t : ℚ) (e : List ℚ) : List ℚ :=
  cond.zipWith (fun c x => if c then t else x) e

/-- Elementwise `np.where(cond, t, e)` with both branches scalar. -/
def npWhereSS (cond : List Bool) (t e : ℚ) : List ℚ :=
  cond.map (fun c => if c then t else e)

/-- `Mouse._get_decisions`: the nested `np.where` over the two flattened
contrast arrays. -/
def getDecisions (cl cr : List ℚ) : List ℚ :=
  npWhereSA (cl.zipWith (fun l r => decide (l > r)) cr) 1
    (npWhereSA (cl.zipWith (fun l r => decide (l < r)) cr) 2
      (npWhereSS (cl.zipWith (fun l r => decide (l = 0) && decide (r = 0)) cr) 3 4))

/-- A pandas `DataFrame` of integer entries: row labels, column labels, and
row-major data. -/
structure SpikeFrame where
  index : List String
  cols : List String
  data : List (List ℤ)
deriving DecidableEq, Repr

/-- `df.shape[1]` for row-major data (pandas pads ragged rows, so the width
is the longest row). -/
def ncols (rows : List (List ℤ)) : ℕ :=
  (rows.map List.length).foldr max 0

/-- The column labels `"Time Bin 1" .. "Time Bin k"`. -/
def binLabels (k : ℕ) : List String :=
  (List.range k).map (fun i => "Time Bin " ++ toString (i + 1))

/-- The spike-count table `pd.DataFrame(trial, index=pd.Series(session[4]),
dtype=int)` with columns relabelled to time bins; `trial` is the
neurons x time-bins spike matrix of one trial. -/
def mkSpikeFrame (areas : List String) (trial : List (List ℤ)) : SpikeFrame :=
  { index := areas, cols := binLabels (ncols trial), data := trial }

/-- Same, with the pandas length check: a `DataFrame` constructor whose
`index` length differs from the number of data rows raises `ValueError`. -/
def mkSpikeFrameChecked (areas : List String) (trial : List (List ℤ)) :
    Option SpikeFrame :=
  if trial.length = areas.length then some (mkSpikeFrame areas trial) else none

/-- Option-valued map over a list: the loop fails as soon as one element
fails. -/
def optionTraverse (f : α → Option β) : List α → Option (List β)
  | [] => some []
  | a :: as => do
      let b ← f a
      let bs ← optionTraverse f as
      some (b :: bs)

/-- `Mouse._get_spikes`: one labelled spike-count table per trial, in trial
order (the source keys them `"Trial 1"`, `"Trial 2"`, ... in a dict; the
dict is modelled positionally since its keys are exactly the trial names in
order). -/
def getSpikes (areas : List String) (spks : List (List (List ℤ))) :
    Option (List SpikeFrame) :=
  optionTraverse (mkSpikeFrameChecked areas) spks

/-- `df.T`: transposed labels and data. -/
def transposeData (rows : List (List ℤ)) : List (List ℤ) :=
  (List.range (ncols rows)).map (fun i => rows.map (fun r => r.getD i 0))

/-- `df.T` on a labelled frame. -/
def dfTranspose (f : SpikeFrame) : SpikeFrame :=
  { index := f.cols, cols := f.index, data := transposeData f.data }

/-- `df.sum()`: the column-wise sums as a Series, one labelled entry per
column. -/
def dfSum (f : SpikeFrame) : List (String × ℤ) :=
  f.cols.enum.map (fun p => (p.2, (f.data.map (fun r => r.getD p.1 0)).sum))

/-- The group keys of `series.groupby(level=0)`: unique index labels, in
sorted order. -/
def groupKeys (s : List (String × ℤ)) : List String :=
  ((s.map Prod.fst).dedup).mergeSort (fun a b => a ≤ b)

/-- The mean of the entries of a Series that carry a given label. -/
def groupMeanVal (s : List (String × ℤ)) (a : String) : ℚ :=
  (((s.filter (fun p => p.1 = a)).map (fun p => (p.2 : ℚ))).sum) /
    ((s.filter (fun p => p.1 = a)).length : ℚ)

/-- `series.groupby(level=0).mean()`. -/
def seriesGroupbyMean (s : List (String × ℤ)) : List (String × ℚ) :=
  (groupKeys s).map (fun a => (a, groupMeanVal s a))

/-- Lines 169-171 of `Mouse._get_model_features`:
`self.spikes.get(trial).T.sum().groupby(level=0).mean()` — the per-region
average, over the region's neurons, of each neuron's summed spike counts. -/
def avgSpikePerArea (f : SpikeFrame) : List (String × ℚ) :=
  seriesGroupbyMean (dfSum (dfTranspose f))

/-- One row of the model-features table (the scalar columns plus the
labelled per-region feature entries of that row). -/
structure ModelRow where
  mouse : String
  sessionNum : ℤ
  trial : ℕ
  decision : ℚ
  feedback : ℚ
  areaFeatures : List (String × ℚ)
deriving DecidableEq, Repr

/-- The row built for trial index `idx` (0-based): the region features from
`avgSpikePerArea` plus `Feedback`, `Decision`, `Mouse`, `Session`,
`Trial = idx + 1`. -/
def modelFeatureRow (name : String) (snum : ℤ) (frame : SpikeFrame)
    (fb dec : ℚ) (idx : ℕ) : ModelRow :=
  { mouse := name, sessionNum := snum, trial := idx + 1,
    decision := dec, feedback := fb, areaFeatures := avgSpikePerArea frame }

/-- The `pd.concat` loop of `_get_model_features`: rows for trial indices
`0 .. n-1` are appended one at a time; a failing row lookup (dict `.get`
returning `None`, or an out-of-bounds numpy index) aborts. -/
def buildRows (f : ℕ → Option ModelRow) : ℕ → Option (List ModelRow)
  | 0 => some []
  | n + 1 =>
      match buildRows f n, f n with
      | some rs, some row => some (rs ++ [row])
      | _, _ => none

/-- `Mouse._get_model_features`, row part: one row per trial, where the
number of trials is the length of the flattened feedback array (a failing
spike-table or feedback/decision lookup corresponds to the dict `.get`
returning `None` or a numpy index error). -/
def getModelFeatures (name : String) (snum : ℤ) (frames : List SpikeFrame)
    (feedback decisions : List ℚ) : Option (List ModelRow) :=
  buildRows
    (fun idx =>
      match frames.get? idx, feedback.get? idx, decisions.get? idx with
      | some frame, some fb, some dec =>
          some (modelFeatureRow name snum frame fb dec idx)
      | _, _, _ => none)
    feedback.length

/-- The five metadata columns moved to the front at the end of
`_get_model_features`. -/
def metaCols : List String :=
  ["Mouse", "Session", "Trial", "Decision", "Feedback"]

/-- The column order of the `features` frame as built: the region feature
columns, then `Feedback`, `Decision`, `Mouse`, `Session`, `Trial` in
assignment order. -/
def featuresRawCols (areaCols : List String) : List String :=
  areaCols ++ ["Feedback", "Decision", "Mouse", "Session", "Trial"]

/-- The final reordering `features[cols]` with
`cols = metaCols + [col for col in features.columns if col not in metaCols]`. -/
def finalCols (rawCols : List String) : List String :=
  metaCols ++ rawCols.filter (fun c => ¬ c ∈ metaCols)

/-- The decoded contents of a session RDS file, in the layout documented in
both source modules: `session[0]`-`session[7]`. -/
structure SessionData where
  contrastLeft : FieldEncoding
  contrastRight : FieldEncoding
  feedbackType : FieldEncoding
  mouseName : List String
  brainArea : List String
  dateExp : List String
  spks : List (List (List ℤ))
  time : List (List ℚ)
deriving DecidableEq, Repr

/-- `Mouse._get_contrast_left`. -/
def getContrastLeft (d : SessionData) : Option (List ℚ) :=
  flattenField d.contrastLeft

/-- `Mouse._get_contrast_right`. -/
def getContrastRight (d : SessionData) : Option (List ℚ) :=
  flattenField d.contrastRight

/-- `Mouse._get_feedback_type`. -/
def getFeedbackType (d : SessionData) : Option (List ℚ) :=
  flattenField d.feedbackType

/-- `ncols` for rational data (used for the time table). -/
def ncolsQ (rows : List (List ℚ)) : ℕ :=
  (rows.map List.length).foldr max 0

/-- `Mouse._get_time`: all time-bin midpoints in one table, rows labelled by
trial (the `pd.concat` column-union padding is not modelled beyond the
width, `time.shape[1]`, which no claim depends on). -/
def getTime (time : List (List ℚ)) : List (String × List ℚ) :=
  time.enum.map (fun p => ("Trial " ++ toString (p.1 + 1), p.2))

/-- The derived attributes of a `Mouse` object. The date string is kept
unparsed (`datetime.strptime` has no bearing on any claim), and the Python
set `brain_areas` is modelled as the deduplicated label list. -/
structure MouseObj where
  sessionNumber : ℤ
  mouseName : String
  dateExp : String
  contrastLeft : List ℚ
  contrastRight : List ℚ
  feedbackType : List ℚ
  spikes : List SpikeFrame
  time : List (String × List ℚ)
  trials : ℕ
  listOfTrials : List String
  timeBins : ℕ
  brainAreas : List String
  decisions : List ℚ
  modelFeatures : List ModelRow
deriving DecidableEq, Repr

/-- The attribute-derivation pipeline of `Mouse.__init__`, run on already
decoded session data: every derived attribute is recomputed from the
session contents, in the source's order. -/
def mkMouse (snum : ℤ) (d : SessionData) : Option MouseObj := do
  let name ← d.mouseName.head?
  let date ← d.dateExp.head?
  let cl ← getContrastLeft d
  let cr ← getContrastRight d
  let fb ← getFeedbackType d
  let spikes ← getSpikes d.brainArea d.spks
  let time := getTime d.time
  let trials := fb.length
  let decisions := getDecisions cl cr
  let rows ← getModelFeatures name snum spikes fb decisions
  some
    { sessionNumber := snum, mouseName := name, dateExp := date,
      contrastLeft := cl, contrastRight := cr, feedbackType := fb,
      spikes := spikes, time := time, trials := trials,
      listOfTrials := (List.range trials).map
        (fun idx => "Trial " ++ toString (idx + 1)),
      timeBins := ncolsQ d.time, brainAreas := d.brainArea.dedup,
      decisions := decisions, modelFeatures := rows }

/-! ### Helper lemmas -/

lemma flatten_map_singleton (l : List ℚ) : (l.map fun x => [x]).flatten = l := by
  induction l with
  | nil => rfl
  | cons x xs ih => simp [ih]

lemma flattenField_nestedEnc (v : List ℚ) (hv : v ≠ []) :
    flattenField (nestedEnc v) = some v := by
  cases v with
  | nil => exact absurd rfl hv
  | cons x xs => simp [nestedEnc, flattenField, flatten_map_singleton]

lemma flattenField_flat (v : List ℚ) (hv : v ≠ []) :
    flattenField (.flat v) = some v := by
  cases v with
  | nil => exact absurd rfl hv
  | cons x xs => simp [flattenField]

lemma getDecisions_nil_left (cr : List ℚ) : getDecisions [] cr = [] := by
  simp [getDecisions, npWhereSA, npWhereSS]

lemma getDecisions_nil_right (cl : List ℚ) : getDecisions cl [] = [] := by
  simp [getDecisions, npWhereSA, npWhereSS]

lemma getDecisions_cons (l r : ℚ) (cl cr : List ℚ) :
    getDecisions (l :: cl) (r :: cr) =
      (if l > r then (1 : ℚ) else if l < r then 2
        else if l = 0 ∧ r = 0 then 3 else 4) :: getDecisions cl cr := by
  simp only [getDecisions, npWhereSA, npWhereSS, List.zipWith_cons_cons,
    List.map_cons, Bool.and_eq_true, decide_eq_true_eq]

lemma getDecisions_length (cl : List ℚ) :
    ∀ cr : List ℚ, (getDecisions cl cr).length = min cl.length cr.length := by
  induction cl with
  | nil => intro cr; simp [getDecisions_nil_left]
  | cons l cl ih =>
      intro cr
      cases cr with
      | nil => simp [getDecisions_nil_right]
      | cons r cr =>
          rw [getDecisions_cons]
          simp [ih cr, Nat.succ_min_succ]

lemma mem_npWhereSS (x t e : ℚ) (cond : List Bool)
    (hx : x ∈ npWhereSS cond t e) : x = t ∨ x = e := by
  simp only [npWhereSS, List.mem_map] at hx
  obtain ⟨c, -, hc⟩ := hx
  cases c with
  | true => left; exact hc.symm
  | false => right; exact hc.symm

lemma mem_npWhereSA (x t : ℚ) (cond : List Bool) (e : List ℚ)
    (hx : x ∈ npWhereSA cond t e) : x = t ∨ x ∈ e := by
  induction cond generalizing e with
  | nil => simp [npWhereSA] at hx
  | cons c cs ih =>
      cases e with
      | nil => simp [npWhereSA] at hx
      | cons y ys =>
          simp only [npWhereSA, List.zipWith_cons_cons, List.mem_cons] at hx
          rcases hx with hx | hx
          · cases c with
            | true => left; simpa using hx
            | false => right; simp_all
          · rcases ih ys hx with h | h
            · left; exact h
            · right; exact List.mem_cons_of_mem _ h

lemma ncols_rect (rows : List (List ℤ)) (k : ℕ)
    (hrect : ∀ r ∈ rows, r.length = k) (hne : rows ≠ []) : ncols rows = k := by
  induction rows with
  | nil => exact absurd rfl hne
  | cons r rs ih =>
      have hr : r.length = k := hrect r (List.mem_cons_self r rs)
      cases rs with
      | nil => simp [ncols, hr]
      | cons r2 rs2 =>
          have : ncols (r2 :: rs2) = k :=
            ih (fun t ht => hrect t (List.mem_cons_of_mem _ ht)) (by simp)
          simp only [ncols, List.map_cons, List.foldr_cons, hr] at this ⊢
          simp [this]

lemma getSpikes_eq_map (areas : List String) (spks : List (List (List ℤ)))
    (h : ∀ t ∈ spks, t.length = areas.length) :
    getSpikes areas spks = some (spks.map (mkSpikeFrame areas)) := by
  induction spks with
  | nil => rfl
  | cons t ts ih =>
      have ht : mkSpikeFrameChecked areas t = some (mkSpikeFrame areas t) := by
        simp [mkSpikeFrameChecked, h t (List.mem_cons_self t ts)]
      have ih2 := ih (fun u hu => h u (List.mem_cons_of_mem _ hu))
      simp only [getSpikes, optionTraverse] at ih2 ⊢
      simp [ht, ih2]

lemma range_map_getD (row : List ℤ) :
    ∀ k : ℕ, row.length = k →
      (List.range k).map (fun i => row.getD i 0) = row := by
  induction row with
  | nil =>
      intro k h
      rw [← h]
      rfl
  | cons x xs ih =>
      intro k h
      cases k with
      | zero => simp at h
      | succ n =>
          have hn : xs.length = n := by simpa using h
          rw [List.range_succ_eq_map, List.map_cons, List.map_map]
          simp only [List.getD_cons_zero]
          congr 1
          have he : ((fun i => (x :: xs).getD i 0) ∘ Nat.succ) =
              fun i => xs.getD i 0 := by
            funext i
            simp [Function.comp]
          rw [he, ih n hn]

lemma getD_map_lt {α β : Type} [Inhabited β] (f : α → β) (l : List α)
    (j : ℕ) (hj : j < l.length) (d : α) (e : β) :
    (l.map f).getD j e = f (l.getD j d) := by
  rw [List.getD_eq_getElem?_getD, List.getElem?_map, List.getElem?_eq_getElem hj,
    List.getD_eq_getElem?_getD, List.getElem?_eq_getElem hj]
  rfl

lemma transpose_colsum (rows : List (List ℤ)) (k j : ℕ)
    (hrect : ∀ r ∈ rows, r.length = k) (hj : j < rows.length) :
    ((transposeData rows).map (fun r => r.getD j 0)).sum = (rows.getD j []).sum := by
  have hne : rows ≠ [] := by
    intro h
    rw [h] at hj
    simp at hj
  have hk : ncols rows = k := ncols_rect rows k hrect hne
  have hrow : rows.getD j [] ∈ rows := by
    have h1 : rows.getD j [] = rows.get ⟨j, hj⟩ := by
      rw [List.getD_eq_getElem?_getD, List.getElem?_eq_getElem hj]
      rfl
    rw [h1]
    exact List.get_mem rows j hj
  have hlenrow : (rows.getD j []).length = k := hrect _ hrow
  unfold transposeData
  rw [hk, List.map_map]
  have hmapeq : ∀ i ∈ List.range k,
      ((fun r => r.getD j 0) ∘ fun i => rows.map fun r => r.getD i 0) i =
        (rows.getD j []).getD i 0 := by
    intro i _
    simp only [Function.comp]
    exact getD_map_lt (fun r => r.getD i 0) rows j hj [] 0
  rw [List.map_congr_left hmapeq, range_map_getD _ k hlenrow]

lemma enum_map_getD_sum (areas : List String) :
    ∀ rows : List (List ℤ), rows.length = areas.length →
      areas.enum.map (fun p => (p.2, (rows.getD p.1 []).sum)) =
        areas.zip (rows.map List.sum) := by
  induction areas with
  | nil =>
      intro rows h
      rfl
  | cons a as ih =>
      intro rows h
      cases rows with
      | nil => simp at h
      | cons r rs =>
          have hn : rs.length = as.length := by simpa using h
          rw [List.enum_cons', List.map_cons, List.map_map, List.map_cons,
            List.zip_cons_cons]
          simp only [List.getD_cons_zero]
          congr 1
          have he : ((fun p => (p.2, ((r :: rs).getD p.1 []).sum)) ∘
              Prod.map (· + 1) id) =
              fun p : ℕ × String => (p.2, (rs.getD p.1 []).sum) := by
            funext p
            cases p with
            | mk i b => simp [Prod.map]
          rw [he, ih rs hn]

lemma dfSum_transpose (areas cols : List String) (rows : List (List ℤ)) (k : ℕ)
    (hlen : rows.length = areas.length) (hrect : ∀ r ∈ rows, r.length = k) :
    dfSum (dfTranspose { index := areas, cols := cols, data := rows }) =
      areas.zip (rows.map List.sum) := by
  simp only [dfSum, dfTranspose]
  have hcongr : ∀ p ∈ areas.enum,
      ((p.2, ((transposeData rows).map (fun r => r.getD p.1 0)).sum) :
          String × ℤ) =
        (p.2, (rows.getD p.1 []).sum) := by
    intro p hp
    have hlt : p.1 < areas.length := by
      have := List.mem_enum_iff_getElem?.1 hp
      have h2 : p.1 < areas.length := by
        by_contra hc
        rw [List.getElem?_eq_none (by omega)] at this
        exact Option.noConfusion this
      exact h2
    rw [transpose_colsum rows k p.1 hrect (by omega)]
  rw [List.map_congr_left hcongr, enum_map_getD_sum areas rows hlen]

lemma lookup_map_self (g : String → ℚ) (ks : List String) (a : String)
    (hnd : ks.Nodup) (ha : a ∈ ks) :
    (ks.map (fun b => (b, g b))).lookup a = some (g a) := by
  induction ks with
  | nil => simp at ha
  | cons b bs ih =>
      by_cases hab : a = b
      · subst hab
        simp [List.lookup_cons]
      · have hne : (a == b) = false := by
          simp [hab]
        rw [List.map_cons, List.lookup_cons]
        simp only [hne]
        exact ih (List.Nodup.of_cons hnd)
          (List.mem_of_ne_of_mem hab ha)

lemma nodup_groupKeys (s : List (String × ℤ)) : (groupKeys s).Nodup :=
  (List.mergeSort_perm (s.map Prod.fst).dedup _).symm.nodup
    (List.nodup_dedup (s.map Prod.fst))

lemma mem_groupKeys (s : List (String × ℤ)) (a : String) :
    a ∈ groupKeys s ↔ a ∈ s.map Prod.fst := by
  simp [groupKeys, List.mem_mergeSort, List.mem_dedup]

lemma lookup_seriesGroupbyMean (s : List (String × ℤ)) (a : String)
    (ha : a ∈ s.map Prod.fst) :
    (seriesGroupbyMean s).lookup a = some (groupMeanVal s a) :=
  lookup_map_self (groupMeanVal s) (groupKeys s) a (nodup_groupKeys s)
    ((mem_groupKeys s a).2 ha)

lemma filter_zip_map_sum (areas : List String) (rows : List (List ℤ))
    (a : String) :
    (areas.zip (rows.map List.sum)).filter (fun p => p.1 = a) =
      ((areas.zip rows).filter (fun p => p.1 = a)).map
        (fun p => (p.1, p.2.sum)) := by
  rw [List.zip_map_right, List.filter_map]
  have hfil : List.filter
        ((fun p : String × ℤ => decide (p.1 = a)) ∘ Prod.map id List.sum)
        (areas.zip rows) =
      List.filter (fun p => decide (p.1 = a)) (areas.zip rows) := by
    apply List.filter_congr
    intro p _
    cases p with
    | mk x y => rfl
  rw [hfil]
  apply List.map_congr_left
  intro p _
  cases p with
  | mk x y => rfl

lemma getD_of_get? {α : Type} (l : List α) (i : ℕ) (x d : α)
    (h : l.get? i = some x) : l.getD i d = x := by
  rw [List.getD_eq_getElem?_getD, ← List.get?_eq_getElem?, h]
  rfl

lemma buildRows_spec (f : ℕ → Option ModelRow) :
    ∀ (n : ℕ) (rows : List ModelRow), buildRows f n = some rows →
      rows.length = n ∧
        ∀ i, i < n → ∃ row, f i = some row ∧ rows.get? i = some row := by
  intro n
  induction n with
  | zero =>
      intro rows h
      simp only [buildRows, Option.some.injEq] at h
      subst h
      exact ⟨rfl, fun i hi => absurd hi (Nat.not_lt_zero i)⟩
  | succ m ih =>
      intro rows h
      rw [buildRows] at h
      cases hrs : buildRows f m with
      | none => rw [hrs] at h; exact Option.noConfusion h
      | some rs =>
      cases hrow : f m with
      | none => rw [hrs, hrow] at h; exact Option.noConfusion h
      | some row =>
      rw [hrs, hrow] at h
      have heq : rs ++ [row] = rows := by
        simpa using h
      obtain ⟨hlen, hget⟩ := ih rs hrs
      subst heq
      refine ⟨by simp [hlen], ?_⟩
      intro i hi
      rcases Nat.lt_or_ge i m with hlt | hge
      · obtain ⟨r0, hf0, hg0⟩ := hget i hlt
        refine ⟨r0, hf0, ?_⟩
        rw [List.get?_append (by omega : i < rs.length)]
        exact hg0
      · have him : i = m := by omega
        subst him
        refine ⟨row, hrow, ?_⟩
        rw [List.get?_append_right (by omega : rs.length ≤ i), hlen]
        simp

lemma getModelFeatures_spec (name : String) (snum : ℤ)
    (frames : List SpikeFrame) (feedback decisions : List ℚ)
    (rows : List ModelRow)
    (h : getModelFeatures name snum frames feedback decisions = some rows) :
    rows.length = feedback.length ∧
    ∀ i, i < feedback.length →
      ∃ frame fb dec,
        frames.get? i = some frame ∧ feedback.get? i = some fb ∧
        decisions.get? i = some dec ∧
        rows.get? i = some (modelFeatureRow name snum frame fb dec i) := by
  obtain ⟨hlen, hget⟩ := buildRows_spec _ _ rows h
  refine ⟨hlen, ?_⟩
  intro i hi
  obtain ⟨row, hfi, hri⟩ := hget i hi
  cases hframe : frames.get? i with
  | none => rw [hframe] at hfi; exact Option.noConfusion hfi
  | some frame =>
  cases hfb : feedback.get? i with
  | none => rw [hframe, hfb] at hfi; exact Option.noConfusion hfi
  | some fb =>
  cases hdec : decisions.get? i with
  | none => rw [hframe, hfb, hdec] at hfi; exact Option.noConfusion hfi
  | some dec =>
  rw [hframe, hfb, hdec] at hfi
  have hrow : modelFeatureRow name snum frame fb dec i = row := by
    simpa using hfi
  exact ⟨frame, fb, dec, rfl, rfl, rfl, by rw [hri, ← hrow]⟩

/-! ### Claims -/

/-- C5: the flattening of the contrast and feedback fields is
encoding-independent: a per-trial value list stored as an array of
one-element sub-arrays (sessions 2-17) and the same list stored as a flat
array of scalars (sessions 1 and 18) flatten to the same flat array, which
lists the per-trial values in trial order, for each of the three fields. -/
theorem flatten_encoding_independent (v : List ℚ) (d₁ d₂ : SessionData)
    (hv : v ≠ [])
    (h1L : d₁.contrastLeft = nestedEnc v) (h2L : d₂.contrastLeft = .flat v)
    (h1R : d₁.contrastRight = nestedEnc v) (h2R : d₂.contrastRight = .flat v)
    (h1F : d₁.feedbackType = nestedEnc v) (h2F : d₂.feedbackType = .flat v) :
    getContrastLeft d₁ = getContrastLeft d₂ ∧ getContrastLeft d₂ = some v ∧
    getContrastRight d₁ = getContrastRight d₂ ∧ getContrastRight d₂ = some v ∧
    getFeedbackType d₁ = getFeedbackType d₂ ∧ getFeedbackType d₂ = some v := by
  simp only [getContrastLeft, getContrastRight, getFeedbackType,
    h1L, h2L, h1R, h2R, h1F, h2F,
    flattenField_nestedEnc v hv, flattenField_flat v hv]
  exact ⟨trivial, trivial, trivial, trivial, trivial, trivial⟩

/-- Witness for C5 at the value list `[0, 1/4, 1]`. -/
theorem flatten_encoding_independent_witness :
    getContrastLeft
        { contrastLeft := nestedEnc [0, 1/4, 1],
          contrastRight := nestedEnc [0, 1/4, 1],
          feedbackType := nestedEnc [0, 1/4, 1],
          mouseName := ["Cori"], brainArea := ["root"],
          dateExp := ["2016-12-14"], spks := [], time := [] } =
      getContrastLeft
        { contrastLeft := .flat [0, 1/4, 1],
          contrastRight := .flat [0, 1/4, 1],
          feedbackType := .flat [0, 1/4, 1],
          mouseName := ["Cori"], brainArea := ["root"],
          dateExp := ["2016-12-14"], spks := [], time := [] } ∧
    getContrastLeft
        { contrastLeft := .flat [0, 1/4, 1],
          contrastRight := .flat [0, 1/4, 1],
          feedbackType := .flat [0, 1/4, 1],
          mouseName := ["Cori"], brainArea := ["root"],
          dateExp := ["2016-12-14"], spks := [], time := [] } =
      some [0, 1/4, 1] := by
  have h := flatten_encoding_independent [0, 1/4, 1]
    { contrastLeft := nestedEnc [0, 1/4, 1],
      contrastRight := nestedEnc [0, 1/4, 1],
      feedbackType := nestedEnc [0, 1/4, 1],
      mouseName := ["Cori"], brainArea := ["root"],
      dateExp := ["2016-12-14"], spks := [], time := [] }
    { contrastLeft := .flat [0, 1/4, 1],
      contrastRight := .flat [0, 1/4, 1],
      feedbackType := .flat [0, 1/4, 1],
      mouseName := ["Cori"], brainArea := ["root"],
      dateExp := ["2016-12-14"], spks := [], time := [] }
    (by simp) rfl rfl rfl rfl rfl rfl
  exact ⟨h.1, h.2.1⟩

/-- C8, counterexample: `None` is an argument that `int()` cannot convert,
yet `get_session_file(None)` raises `TypeError` (only `ValueError` is
caught) instead of returning an empty list. -/
theorem get_session_file_none_raises :
    pyIntConv .pyNone = .error .typeError ∧
    get_session_file .pyNone = .error .typeError := ⟨rfl, rfl⟩

/-- C8, amended: arguments whose `int()` conversion fails with `ValueError`
(non-numeric strings) and integers outside 1..19 yield an empty list without
raising, but arguments whose conversion fails with `TypeError` (`None`, a
list) make `get_session_file` raise. -/
theorem get_session_file_validation (s : String) (z : ℤ) (xs : List ℤ)
    (hs : pyStrToInt s = none) (hz : z < 1 ∨ z > 19) :
    get_session_file (.str s) = .ok .emptyList ∧
    get_session_file (.int z) = .ok .emptyList ∧
    get_session_file .pyNone = .error .typeError ∧
    get_session_file (.list xs) = .error .typeError := by
  refine ⟨?_, ?_, rfl, rfl⟩
  · simp [get_session_file, pyIntConv, hs]
  · simp [get_session_file, pyIntConv, hz]

/-- Witness for C8 (amended) at `"abc"`, `0` and `[]`. -/
theorem get_session_file_validation_witness :
    get_session_file (.str "abc") = .ok .emptyList ∧
    get_session_file (.int 0) = .ok .emptyList ∧
    get_session_file .pyNone = .error .typeError ∧
    get_session_file (.list []) = .error .typeError :=
  get_session_file_validation "abc" 0 [] (by decide) (by decide)

/-- In-range session numbers pass validation and the corresponding RDS file
is read (used to document C2: the bug is in the call site, not here). -/
theorem get_session_file_in_range (z : ℤ) (h1 : 1 ≤ z) (h2 : z ≤ 19) :
    get_session_file (.int z) = .ok (.fileData z) := by
  simp only [get_session_file, pyIntConv]
  rw [if_neg (by omega)]

/-- C2: `Mouse.__init__` passes two positional arguments,
`get_session_file(session, test)`, to a function whose signature takes one,
so construction raises `TypeError` for every session; had the session
number been passed alone, the validation would have accepted it and read
the session file. -/
theorem mouse_init_session_load_raises :
    mouse_init_session_load (.int 1) false = .error .typeError ∧
    get_session_file (.int 1) = .ok (.fileData 1) := by
  exact ⟨rfl, get_session_file_in_range 1 (by decide) (by decide)⟩

/-- C1: for each trial index the decision label is 1 when the left contrast
exceeds the right, 2 when it is below it, 3 when both contrasts are 0 and 4
otherwise, and the decisions array is aligned index-for-index with the
contrast arrays (one entry per trial). -/
theorem decisions_rule (cl cr : List ℚ) (h : cl.length = cr.length) :
    (getDecisions cl cr).length = cl.length ∧
    ∀ i, i < cl.length →
      (getDecisions cl cr).getD i 0 =
        if cl.getD i 0 > cr.getD i 0 then 1
        else if cl.getD i 0 < cr.getD i 0 then 2
        else if cl.getD i 0 = 0 ∧ cr.getD i 0 = 0 then 3 else 4 := by
  constructor
  · rw [getDecisions_length, h, Nat.min_self]
  · intro i hi
    induction cl generalizing cr i with
    | nil => exact absurd hi (by simp)
    | cons l cl ih =>
        cases cr with
        | nil => exact absurd h (by simp)
        | cons r cr =>
            rw [getDecisions_cons]
            cases i with
            | zero => simp
            | succ j =>
                simp only [List.getD_cons_succ]
                exact ih cr (by simpa using h) j (by simpa using hi)

/-- Witness for C1 on the contrast pairs `(1, 0)` and `(0, 1)`. -/
theorem decisions_rule_witness :
    (getDecisions [(1 : ℚ), 0] [0, 1]).length = 2 ∧
    (getDecisions [(1 : ℚ), 0] [0, 1]).getD 0 0 = 1 ∧
    (getDecisions [(1 : ℚ), 0] [0, 1]).getD 1 0 = 2 := by
  have h := decisions_rule [(1 : ℚ), 0] [0, 1] rfl
  refine ⟨h.1, ?_, ?_⟩
  · have h0 := h.2 0 (by norm_num)
    norm_num at h0
    exact h0
  · have h1 := h.2 1 (by norm_num)
    norm_num at h1
    exact h1

/-- C9: every entry of the decisions array lies in `{1, 2, 3, 4}`, whatever
the input contrast arrays are. -/
theorem decisions_in_range (cl cr : List ℚ) (x : ℚ)
    (hx : x ∈ getDecisions cl cr) : x = 1 ∨ x = 2 ∨ x = 3 ∨ x = 4 := by
  unfold getDecisions at hx
  rcases mem_npWhereSA _ _ _ _ hx with h | h
  · exact Or.inl h
  · rcases mem_npWhereSA _ _ _ _ h with h | h
    · exact Or.inr (Or.inl h)
    · rcases mem_npWhereSS _ _ _ _ h with h | h
      · exact Or.inr (Or.inr (Or.inl h))
      · exact Or.inr (Or.inr (Or.inr h))

/-- Witness for C9 at the decision computed for contrasts `(1, 0)`. -/
theorem decisions_in_range_witness :
    (1 : ℚ) ∈ getDecisions [1] [0] ∧
    ((1 : ℚ) = 1 ∨ (1 : ℚ) = 2 ∨ (1 : ℚ) = 3 ∨ (1 : ℚ) = 4) := by
  have hmem : (1 : ℚ) ∈ getDecisions [1] [0] := by
    rw [getDecisions_cons]
    norm_num
  exact ⟨hmem, decisions_in_range [1] [0] 1 hmem⟩

/-- C6: for every trial, the assembled spike-count table has the per-neuron
brain-area labels as its row labels in their original order, columns
labelled `"Time Bin 1"` through `"Time Bin k"` with `k` the number of time
bins of that trial, and the integer spike counts of that trial as its
entries. -/
theorem spikes_table (areas : List String) (spks : List (List (List ℤ)))
    (i k : ℕ) (trial : List (List ℤ))
    (hne : areas ≠ [])
    (hlen : ∀ t ∈ spks, t.length = areas.length)
    (hi : spks.get? i = some trial)
    (hrect : ∀ r ∈ trial, r.length = k) :
    getSpikes areas spks = some (spks.map (mkSpikeFrame areas)) ∧
      (spks.map (mkSpikeFrame areas)).get? i =
        some { index := areas, cols := binLabels k, data := trial } ∧
      (binLabels k).length = k ∧
      ∀ j, j < k → (binLabels k).get? j = some ("Time Bin " ++ toString (j + 1)) := by
  refine ⟨getSpikes_eq_map areas spks hlen, ?_, ?_, ?_⟩
  · have htriv : trial ∈ spks := List.get?_mem hi
    have htl : trial.length = areas.length := hlen trial htriv
    have htne : trial ≠ [] := by
      intro hcon
      rw [hcon] at htl
      exact hne (List.eq_nil_of_length_eq_zero htl.symm)
    have hk : ncols trial = k := ncols_rect trial k hrect htne
    simp only [List.get?_eq_getElem?, List.getElem?_map, hi]
    simp only [List.get?_eq_getElem?] at hi
    rw [hi]
    simp [mkSpikeFrame, hk]
  · simp [binLabels]
  · intro j hj
    simp [binLabels, List.get?_eq_getElem?, List.getElem?_range hj]

/-- Witness for C6 at a two-neuron, three-bin trial. -/
theorem spikes_table_witness :
    getSpikes ["VISp", "root"] [[[1, 2, 3], [4, 5, 6]]] =
      some [{ index := ["VISp", "root"],
              cols := ["Time Bin 1", "Time Bin 2", "Time Bin 3"],
              data := [[1, 2, 3], [4, 5, 6]] }] ∧
    (binLabels 3).length = 3 ∧
    (binLabels 3).get? 2 = some "Time Bin 3" := by
  have h := spikes_table ["VISp", "root"] [[[1, 2, 3], [4, 5, 6]]] 0 3
    [[1, 2, 3], [4, 5, 6]] (by simp) (by simp) rfl (by simp)
  refine ⟨?_, h.2.2.1, ?_⟩
  · rw [h.1]
    decide
  · have h4 := h.2.2.2 2 (by norm_num)
    simpa using h4

/-- C4: for a trial and a brain region, the average-activity feature of the
region equals the mean, over the neurons recorded in that region, of each
neuron's total spike count summed across all time bins of the trial. -/
theorem avg_activity_per_region (areas : List String) (rows : List (List ℤ))
    (k : ℕ) (a : String)
    (hlen : rows.length = areas.length)
    (hrect : ∀ r ∈ rows, r.length = k)
    (ha : a ∈ areas) :
    (avgSpikePerArea (mkSpikeFrame areas rows)).lookup a =
      some ((((areas.zip rows).filter (fun p => p.1 = a)).map
          (fun p => ((p.2.sum : ℤ) : ℚ))).sum /
        (((areas.zip rows).filter (fun p => p.1 = a)).length : ℚ)) := by
  unfold avgSpikePerArea mkSpikeFrame
  rw [dfSum_transpose areas (binLabels (ncols rows)) rows k hlen hrect]
  have hkeys : a ∈ (areas.zip (rows.map List.sum)).map Prod.fst := by
    rw [List.map_fst_zip areas (rows.map List.sum) (by simp [hlen])]
    exact ha
  rw [lookup_seriesGroupbyMean _ a hkeys]
  congr 1
  unfold groupMeanVal
  rw [filter_zip_map_sum, List.map_map, List.length_map]
  rfl

/-- Witness for C4: region `"b"` holds neurons with totals 3 and 11, whose
mean is 7. -/
theorem avg_activity_per_region_witness :
    (avgSpikePerArea
        (mkSpikeFrame ["b", "a", "b"] [[1, 2], [3, 4], [5, 6]])).lookup "b" =
      some 7 := by
  have h := avg_activity_per_region ["b", "a", "b"] [[1, 2], [3, 4], [5, 6]]
    2 "b" rfl (by simp) (by simp)
  rw [h]
  have hab : (decide ("a" = "b")) = false := by rfl
  norm_num [List.zip, List.zipWith, List.filter, hab]

/-- C3: the model-features table has exactly one row per trial, where the
number of trials is the length of the flattened feedback array, and row `i`
carries the feedback outcome `feedback_type[i]` and decision label
`decisions[i]` alongside the per-region average-activity features of trial
`i`. -/
theorem model_features_per_trial (snum : ℤ) (d : SessionData) (m : MouseObj)
    (i : ℕ) (dr : ModelRow) (df : SpikeFrame)
    (hmk : mkMouse snum d = some m) (hi : i < m.trials) :
    m.modelFeatures.length = m.trials ∧
    m.trials = m.feedbackType.length ∧
    (m.modelFeatures.getD i dr).feedback = m.feedbackType.getD i 0 ∧
    (m.modelFeatures.getD i dr).decision = m.decisions.getD i 0 ∧
    (m.modelFeatures.getD i dr).areaFeatures =
      avgSpikePerArea (m.spikes.getD i df) := by
  simp only [mkMouse, Option.bind_eq_bind, Option.bind_eq_some,
    Option.some.injEq] at hmk
  obtain ⟨name, hname, date, hdate, cl, hcl, cr, hcr, fb, hfb, spikes,
    hspikes, rows, hrows, hm⟩ := hmk
  subst hm
  obtain ⟨hlen, hget⟩ := getModelFeatures_spec _ _ _ _ _ _ hrows
  have hi2 : i < fb.length := hi
  obtain ⟨frame, fbv, dec, hfr, hfbv, hdec, hrow⟩ := hget i hi2
  refine ⟨hlen, rfl, ?_, ?_, ?_⟩
  · show (rows.getD i dr).feedback = fb.getD i 0
    rw [getD_of_get? rows i _ dr hrow, getD_of_get? fb i fbv 0 hfbv]
    rfl
  · show (rows.getD i dr).decision = (getDecisions cl cr).getD i 0
    rw [getD_of_get? rows i _ dr hrow,
      getD_of_get? (getDecisions cl cr) i dec 0 hdec]
    rfl
  · show (rows.getD i dr).areaFeatures = avgSpikePerArea (spikes.getD i df)
    rw [getD_of_get? rows i _ dr hrow, getD_of_get? spikes i frame df hfr]
    rfl

/-- Witness for C3 at a one-trial, one-neuron session. -/
theorem model_features_per_trial_witness :
    [({ mouse := "Cori", sessionNum := 1, trial := 1, decision := 1,
        feedback := 1, areaFeatures := [("root", (5 : ℚ))] } :
        ModelRow)].length = 1 ∧
    (1 : ℕ) = [(1 : ℚ)].length ∧
    ([({ mouse := "Cori", sessionNum := 1, trial := 1, decision := 1,
         feedback := 1, areaFeatures := [("root", (5 : ℚ))] } :
         ModelRow)].getD 0
      { mouse := "", sessionNum := 0, trial := 0, decision := 0,
        feedback := 0, areaFeatures := [] }).feedback = [(1 : ℚ)].getD 0 0 ∧
    ([({ mouse := "Cori", sessionNum := 1, trial := 1, decision := 1,
         feedback := 1, areaFeatures := [("root", (5 : ℚ))] } :
         ModelRow)].getD 0
      { mouse := "", sessionNum := 0, trial := 0, decision := 0,
        feedback := 0, areaFeatures := [] }).decision =
      (getDecisions [1] [0]).getD 0 0 ∧
    ([({ mouse := "Cori", sessionNum := 1, trial := 1, decision := 1,
         feedback := 1, areaFeatures := [("root", (5 : ℚ))] } :
         ModelRow)].getD 0
      { mouse := "", sessionNum := 0, trial := 0, decision := 0,
        feedback := 0, areaFeatures := [] }).areaFeatures =
      avgSpikePerArea
        ([({ index := ["root"], cols := ["Time Bin 1"], data := [[5]] } :
            SpikeFrame)].getD 0 { index := [], cols := [], data := [] }) := by
  have hmk : mkMouse 1
      { contrastLeft := .flat [1], contrastRight := .flat [0],
        feedbackType := .flat [1], mouseName := ["Cori"],
        brainArea := ["root"], dateExp := ["2016-12-14"],
        spks := [[[5]]], time := [[1/2]] } =
      some { sessionNumber := 1, mouseName := "Cori",
             dateExp := "2016-12-14", contrastLeft := [1],
             contrastRight := [0], feedbackType := [1],
             spikes := [{ index := ["root"], cols := ["Time Bin 1"],
                          data := [[5]] }],
             time := [("Trial 1", [1/2])], trials := 1,
             listOfTrials := ["Trial 1"], timeBins := 1,
             brainAreas := ["root"], decisions := [1],
             modelFeatures := [{ mouse := "Cori", sessionNum := 1,
                                 trial := 1, decision := 1, feedback := 1,
                                 areaFeatures := [("root", 5)] }] } := by
    simp [mkMouse, getContrastLeft, getContrastRight, getFeedbackType,
      flattenField, getSpikes, optionTraverse, mkSpikeFrameChecked,
      mkSpikeFrame, ncols, binLabels, getTime, ncolsQ, getDecisions,
      npWhereSA, npWhereSS, getModelFeatures, buildRows, modelFeatureRow,
      avgSpikePerArea, dfSum, dfTranspose, transposeData, seriesGroupbyMean,
      groupKeys, groupMeanVal, List.enum, List.range_succ]
    exact ⟨rfl, rfl⟩
  exact model_features_per_trial 1 _ _ 0
    { mouse := "", sessionNum := 0, trial := 0, decision := 0,
      feedback := 0, areaFeatures := [] }
    { index := [], cols := [], data := [] } hmk (by decide)

/-- C10: the model-features table has `Mouse`, `Session`, `Trial`,
`Decision`, `Feedback` as its first five columns in that order, followed by
the brain-region feature columns, and the `Trial` value of row `i` is
`i + 1`. -/
theorem model_features_columns (areaCols : List String) (name : String)
    (snum : ℤ) (frames : List SpikeFrame) (feedback decisions : List ℚ)
    (rows : List ModelRow) (i : ℕ) (dr : ModelRow)
    (hdisj : ∀ a ∈ areaCols, ¬ a ∈ metaCols)
    (h : getModelFeatures name snum frames feedback decisions = some rows)
    (hi : i < rows.length) :
    finalCols (featuresRawCols areaCols) = metaCols ++ areaCols ∧
    (rows.getD i dr).trial = i + 1 := by
  constructor
  · unfold finalCols featuresRawCols
    rw [List.filter_append]
    have h1 : areaCols.filter (fun c => ¬ c ∈ metaCols) = areaCols := by
      rw [List.filter_eq_self]
      intro a ha
      simpa using hdisj a ha
    have h2 : (["Feedback", "Decision", "Mouse", "Session", "Trial"] :
        List String).filter (fun c => ¬ c ∈ metaCols) = [] := by decide
    rw [h1, h2, List.append_nil]
  · obtain ⟨hlen, hget⟩ := getModelFeatures_spec _ _ _ _ _ _ h
    have hi2 : i < feedback.length := hlen ▸ hi
    obtain ⟨frame, fbv, dec, hfr, hfbv, hdec, hrow⟩ := hget i hi2
    rw [getD_of_get? rows i _ dr hrow]
    rfl

/-- Witness for C10 at a one-trial table with one region column. -/
theorem model_features_columns_witness :
    finalCols (featuresRawCols ["root"]) = metaCols ++ ["root"] ∧
    ([({ mouse := "Hench", sessionNum := 2, trial := 1, decision := 3,
         feedback := -1, areaFeatures := [("root", (2 : ℚ))] } :
         ModelRow)].getD 0
      { mouse := "", sessionNum := 0, trial := 0, decision := 0,
        feedback := 0, areaFeatures := [] }).trial = 0 + 1 := by
  have h : getModelFeatures "Hench" 2
      [{ index := ["root"], cols := ["Time Bin 1"], data := [[2]] }]
      [-1] [3] =
      some [{ mouse := "Hench", sessionNum := 2, trial := 1, decision := 3,
              feedback := -1, areaFeatures := [("root", 2)] }] := by
    simp [getModelFeatures, buildRows, modelFeatureRow, avgSpikePerArea,
      dfSum, dfTranspose, transposeData, ncols, seriesGroupbyMean,
      groupKeys, groupMeanVal, List.enum, List.range_succ]
  exact model_features_columns ["root"] "Hench" 2 _ _ _ _ 0
    { mouse := "", sessionNum := 0, trial := 0, decision := 0,
      feedback := 0, areaFeatures := [] }
    (by decide) h (by decide)

/-- C7: the attribute derivation of `Mouse.__init__` is a pure function of
the decoded session contents: re-running the construction over the same
underlying session data rebuilds identical derived attributes, with no
cached state to diverge. -/
theorem mkMouse_deterministic (snum : ℤ) (d₁ d₂ : SessionData)
    (h : d₁ = d₂) : mkMouse snum d₁ = mkMouse snum d₂ := by
  rw [h]

/-- Witness for C7 at a concrete two-trial session. -/
theorem mkMouse_deterministic_witness :
    mkMouse 3
        { contrastLeft := nestedEnc [1, 0], contrastRight := .flat [0, 0],
          feedbackType := nestedEnc [1, -1], mouseName := ["Cori"],
          brainArea := ["VISp", "root"], dateExp := ["2016-12-14"],
          spks := [[[1, 2], [3, 4]], [[0, 0], [5, 7]]],
          time := [[1/2, 3/2], [1/2, 3/2]] } =
      mkMouse 3
        { contrastLeft := nestedEnc [1, 0], contrastRight := .flat [0, 0],
          feedbackType := nestedEnc [1, -1], mouseName := ["Cori"],
          brainArea := ["VISp", "root"], dateExp := ["2016-12-14"],
          spks := [[[1, 2], [3, 4]], [[0, 0], [5, 7]]],
          time := [[1/2, 3/2], [1/2, 3/2]] } :=
  mkMouse_deterministic 3 _ _ rfl

end PredModel
